import Mathlib

/-!
# Verification of the xml2abx encoder (src/lib.rs)

Shallow embedding of the XML → Android Binary XML (ABX) converter:
the primitive binary writer `FastDataOutput`, the token emitter
`BinaryXmlSerializer`, the `type_detection` helpers, and the
event-driven conversion pipeline `XmlToAbxConverter`.

Modelling conventions:
* The underlying byte sink is a pure list; Rust's `io::Write` errors have no
  counterpart here (the model sink always accepts bytes), so operations fail
  only with the encoder's own error conditions (`StringTooLong`,
  `BinaryDataTooLong`), mirrored by the `ConversionError` inductive.
* Machine integers are modelled as `Nat`/`Int` with explicit `% 2^w`
  where Rust performs a narrowing cast (`interned_strings.len() as u16`).
* IEEE-754 doubles are not modelled numerically: the 8-byte payload written
  by `attribute_double` is kept symbolic (constructor `OByte.dbl`), tagged
  with the source string the Rust code parsed the `f64` from.
* Warnings (`show_warning`) go to stderr and never affect the output bytes;
  they are omitted.
-/

namespace Xml2Abx

/-- Errors of the encoder, from `ConversionError` in src/lib.rs.  Only the
variants reachable in the pure model are included (`XmlParsing`, `Io`,
`Utf8Error`, … arise from external collaborators that the model treats as
already-decoded input). -/
inductive ConversionError where
  | stringTooLong (len maxLen : Nat)
  | binaryDataTooLong (len maxLen : Nat)
deriving DecidableEq

deriving instance DecidableEq for Except

/-- One element of the output stream.  `raw v` is a concrete byte (0–255).
`dbl s i` stands for byte `i` (0‥7) of the big-endian IEEE-754 encoding of
the `f64` obtained by parsing `s` — kept symbolic because floating point is
not modelled numerically. -/
inductive OByte where
  | raw (v : Nat)
  | dbl (s : String) (i : Nat)
deriving DecidableEq

/-- Standard UTF-8 encoding of one character, as byte values.  Mirrors what
Rust's `str::as_bytes` exposes for each `char` of the string. -/
def utf8EncodeChar (c : Char) : List Nat :=
  let n := c.toNat
  if n < 0x80 then [n]
  else if n < 0x800 then [0xC0 + n / 64, 0x80 + n % 64]
  else if n < 0x10000 then [0xE0 + n / 4096, 0x80 + n / 64 % 64, 0x80 + n % 64]
  else [0xF0 + n / 262144, 0x80 + n / 4096 % 64, 0x80 + n / 64 % 64, 0x80 + n % 64]

/-- The UTF-8 bytes of a string (Rust `s.as_bytes()`). -/
def strBytes (s : String) : List Nat :=
  (s.data.map utf8EncodeChar).flatten

/-- UTF-8 byte length of a string (Rust `s.len()` / `s.as_bytes().len()`). -/
def strLen (s : String) : Nat :=
  (strBytes s).length

/-- Big-endian byte decomposition: `beBytes w v` is the `w`-byte big-endian
encoding of `v % 256^w`. -/
def beBytes : Nat → Nat → List Nat
  | 0, _ => []
  | w + 1, v => v / 256 ^ w % 256 :: beBytes w v

/-- Association-list lookup modelling `HashMap::get` on `string_pool`. -/
def poolGet : List (String × Nat) → String → Option Nat
  | [], _ => none
  | (k, v) :: rest, s => if k = s then some v else poolGet rest s

/-- State of `FastDataOutput<W>`: the bytes written so far (the sink),
the `string_pool` map and the `interned_strings` vector. -/
structure FastDataOutput where
  out : List OByte
  string_pool : List (String × Nat)
  interned_strings : List String
deriving DecidableEq

/-- `FastDataOutput::MAX_UNSIGNED_SHORT`. -/
def MAX_UNSIGNED_SHORT : Nat := 65535

/-- `FastDataOutput::new`. -/
def FastDataOutput.new : FastDataOutput :=
  ⟨[], [], []⟩

/-- `FastDataOutput::write_byte` (the argument is a `u8`, i.e. `< 256`). -/
def write_byte (o : FastDataOutput) (v : Nat) : FastDataOutput :=
  { o with out := o.out ++ [OByte.raw (v % 256)] }

/-- The two big-endian bytes of a `u16` value. -/
def shortB (v : Nat) : List OByte :=
  [OByte.raw (v / 256 % 256), OByte.raw (v % 256)]

/-- `FastDataOutput::write_short` (big-endian `u16`). -/
def write_short (o : FastDataOutput) (v : Nat) : FastDataOutput :=
  { o with out := o.out ++ shortB v }

/-- `FastDataOutput::write_int` (big-endian `i32`, two's complement). -/
def write_int (o : FastDataOutput) (v : Int) : FastDataOutput :=
  { o with out := o.out ++ (beBytes 4 (v % 4294967296).toNat).map OByte.raw }

/-- `FastDataOutput::write_long` (big-endian `i64`, two's complement). -/
def write_long (o : FastDataOutput) (v : Int) : FastDataOutput :=
  { o with out := o.out ++ (beBytes 8 (v % 18446744073709551616).toNat).map OByte.raw }

/-- `FastDataOutput::write_double`: appends the 8 bytes of the big-endian
IEEE-754 encoding of the `f64` parsed from `s` (symbolic, see `OByte.dbl`). -/
def write_double (o : FastDataOutput) (s : String) : FastDataOutput :=
  { o with out := o.out ++ (List.range 8).map (OByte.dbl s) }

/-- `FastDataOutput::write_bytes` (Rust `write_all` of raw bytes). -/
def write_bytes (o : FastDataOutput) (data : List Nat) : FastDataOutput :=
  { o with out := o.out ++ data.map OByte.raw }

/-- The byte sequence produced by a successful `write_utf`:
2-byte length prefix followed by the UTF-8 bytes. -/
def utfB (s : String) : List OByte :=
  shortB (strLen s) ++ (strBytes s).map OByte.raw

/-- `FastDataOutput::write_utf`: length-prefixed UTF-8 string, fails with
`StringTooLong` when the byte length exceeds `MAX_UNSIGNED_SHORT`. -/
def write_utf (o : FastDataOutput) (s : String) : Except ConversionError FastDataOutput :=
  if strLen s > MAX_UNSIGNED_SHORT then
    .error (.stringTooLong (strLen s) MAX_UNSIGNED_SHORT)
  else
    .ok (write_bytes (write_short o (strLen s)) (strBytes s))

/-- `FastDataOutput::write_interned_utf`: existing pool entry → its index as
a short; otherwise sentinel `0xFFFF`, the literal string, and registration at
index `interned_strings.len() as u16` (the Rust cast is `% 2^16`). -/
def write_interned_utf (o : FastDataOutput) (s : String) :
    Except ConversionError FastDataOutput :=
  match poolGet o.string_pool s with
  | some index => .ok (write_short o index)
  | none =>
    match write_utf (write_short o 0xFFFF) s with
    | .error e => .error e
    | .ok o1 =>
      let index := o1.interned_strings.length % 65536
      .ok { o1 with
              string_pool := (s, index) :: o1.string_pool,
              interned_strings := o1.interned_strings ++ [s] }

/-- State of `BinaryXmlSerializer<W>`. -/
structure BinaryXmlSerializer where
  output : FastDataOutput
  tag_count : Nat
  tag_names : List String
  preserve_whitespace : Bool
deriving DecidableEq

/-- `BinaryXmlSerializer::PROTOCOL_MAGIC_VERSION_0`. -/
def PROTOCOL_MAGIC_VERSION_0 : List Nat := [0x41, 0x42, 0x58, 0x00]

def START_DOCUMENT : Nat := 0
def END_DOCUMENT : Nat := 1
def START_TAG : Nat := 2
def END_TAG : Nat := 3
def TEXT : Nat := 4
def CDSECT : Nat := 5
def ENTITY_REF : Nat := 6
def IGNORABLE_WHITESPACE : Nat := 7
def PROCESSING_INSTRUCTION : Nat := 8
def COMMENT : Nat := 9
def DOCDECL : Nat := 10
def ATTRIBUTE : Nat := 15

def TYPE_NULL : Nat := 1 <<< 4
def TYPE_STRING : Nat := 2 <<< 4
def TYPE_STRING_INTERNED : Nat := 3 <<< 4
def TYPE_BYTES_HEX : Nat := 4 <<< 4
def TYPE_BYTES_BASE64 : Nat := 5 <<< 4
def TYPE_INT : Nat := 6 <<< 4
def TYPE_INT_HEX : Nat := 7 <<< 4
def TYPE_LONG : Nat := 8 <<< 4
def TYPE_LONG_HEX : Nat := 9 <<< 4
def TYPE_FLOAT : Nat := 10 <<< 4
def TYPE_DOUBLE : Nat := 11 <<< 4
def TYPE_BOOLEAN_TRUE : Nat := 12 <<< 4
def TYPE_BOOLEAN_FALSE : Nat := 13 <<< 4

/-- `BinaryXmlSerializer::with_options`: fresh serializer that has already
written the 4-byte magic header.  (The Rust `Result` return only carries
sink I/O errors, which the model sink cannot produce.) -/
def with_options (preserve_whitespace : Bool) : BinaryXmlSerializer :=
  { output := write_bytes FastDataOutput.new PROTOCOL_MAGIC_VERSION_0,
    tag_count := 0,
    tag_names := [],
    preserve_whitespace := preserve_whitespace }

/-- `BinaryXmlSerializer::write_token`. -/
def write_token (ser : BinaryXmlSerializer) (token : Nat) (text? : Option String) :
    Except ConversionError BinaryXmlSerializer :=
  match text? with
  | some t =>
    match write_utf (write_byte ser.output (token ||| TYPE_STRING)) t with
    | .error e => .error e
    | .ok o => .ok { ser with output := o }
  | none => .ok { ser with output := write_byte ser.output (token ||| TYPE_NULL) }

/-- `BinaryXmlSerializer::start_document`. -/
def start_document (ser : BinaryXmlSerializer) : BinaryXmlSerializer :=
  { ser with output := write_byte ser.output (START_DOCUMENT ||| TYPE_NULL) }

/-- `BinaryXmlSerializer::end_document` (the flush is a no-op on the model
sink). -/
def end_document (ser : BinaryXmlSerializer) : BinaryXmlSerializer :=
  { ser with output := write_byte ser.output (END_DOCUMENT ||| TYPE_NULL) }

/-- `BinaryXmlSerializer::start_tag`: amortized growth of `tag_names`
(`resize` to `tag_count + max(1, tag_count / 2)` when full), store the name
at position `tag_count`, increment the count, then emit the token. -/
def start_tag (ser : BinaryXmlSerializer) (name : String) :
    Except ConversionError BinaryXmlSerializer :=
  let names :=
    if ser.tag_count = ser.tag_names.length then
      ser.tag_names ++ List.replicate (max 1 (ser.tag_count / 2)) ""
    else
      ser.tag_names
  let names := names.set ser.tag_count name
  match write_interned_utf (write_byte ser.output (START_TAG ||| TYPE_STRING_INTERNED)) name with
  | .error e => .error e
  | .ok o =>
    .ok { ser with output := o, tag_count := ser.tag_count + 1, tag_names := names }

/-- `BinaryXmlSerializer::end_tag`: unguarded `tag_count -= 1` (truncated at
0 in the `Nat` model; claim C9 shows the well-formed precondition keeps the
subtraction exact), then the token. -/
def end_tag (ser : BinaryXmlSerializer) (name : String) :
    Except ConversionError BinaryXmlSerializer :=
  match write_interned_utf (write_byte ser.output (END_TAG ||| TYPE_STRING_INTERNED)) name with
  | .error e => .error e
  | .ok o => .ok { ser with output := o, tag_count := ser.tag_count - 1 }

/-- `BinaryXmlSerializer::attribute` (plain, non-interned string value).
Named `attributeOp` because `attribute` is a Lean keyword. -/
def attributeOp (ser : BinaryXmlSerializer) (name value : String) :
    Except ConversionError BinaryXmlSerializer :=
  match write_interned_utf (write_byte ser.output (ATTRIBUTE ||| TYPE_STRING)) name with
  | .error e => .error e
  | .ok o =>
    match write_utf o value with
    | .error e => .error e
    | .ok o1 => .ok { ser with output := o1 }

/-- `BinaryXmlSerializer::attribute_interned`. -/
def attribute_interned (ser : BinaryXmlSerializer) (name value : String) :
    Except ConversionError BinaryXmlSerializer :=
  match write_interned_utf (write_byte ser.output (ATTRIBUTE ||| TYPE_STRING_INTERNED)) name with
  | .error e => .error e
  | .ok o =>
    match write_interned_utf o value with
    | .error e => .error e
    | .ok o1 => .ok { ser with output := o1 }

/-- `BinaryXmlSerializer::attribute_bytes_hex`: rejects payloads longer than
`MAX_UNSIGNED_SHORT` before writing anything. -/
def attribute_bytes_hex (ser : BinaryXmlSerializer) (name : String) (value : List Nat) :
    Except ConversionError BinaryXmlSerializer :=
  if value.length > MAX_UNSIGNED_SHORT then
    .error (.binaryDataTooLong value.length MAX_UNSIGNED_SHORT)
  else
    match write_interned_utf (write_byte ser.output (ATTRIBUTE ||| TYPE_BYTES_HEX)) name with
    | .error e => .error e
    | .ok o => .ok { ser with output := write_bytes (write_short o value.length) value }

/-- `BinaryXmlSerializer::attribute_bytes_base64`. -/
def attribute_bytes_base64 (ser : BinaryXmlSerializer) (name : String) (value : List Nat) :
    Except ConversionError BinaryXmlSerializer :=
  if value.length > MAX_UNSIGNED_SHORT then
    .error (.binaryDataTooLong value.length MAX_UNSIGNED_SHORT)
  else
    match write_interned_utf (write_byte ser.output (ATTRIBUTE ||| TYPE_BYTES_BASE64)) name with
    | .error e => .error e
    | .ok o => .ok { ser with output := write_bytes (write_short o value.length) value }

/-- `BinaryXmlSerializer::attribute_int`. -/
def attribute_int (ser : BinaryXmlSerializer) (name : String) (value : Int) :
    Except ConversionError BinaryXmlSerializer :=
  match write_interned_utf (write_byte ser.output (ATTRIBUTE ||| TYPE_INT)) name with
  | .error e => .error e
  | .ok o => .ok { ser with output := write_int o value }

/-- `BinaryXmlSerializer::attribute_int_hex`. -/
def attribute_int_hex (ser : BinaryXmlSerializer) (name : String) (value : Int) :
    Except ConversionError BinaryXmlSerializer :=
  match write_interned_utf (write_byte ser.output (ATTRIBUTE ||| TYPE_INT_HEX)) name with
  | .error e => .error e
  | .ok o => .ok { ser with output := write_int o value }

/-- `BinaryXmlSerializer::attribute_long`. -/
def attribute_long (ser : BinaryXmlSerializer) (name : String) (value : Int) :
    Except ConversionError BinaryXmlSerializer :=
  match write_interned_utf (write_byte ser.output (ATTRIBUTE ||| TYPE_LONG)) name with
  | .error e => .error e
  | .ok o => .ok { ser with output := write_long o value }

/-- `BinaryXmlSerializer::attribute_long_hex`. -/
def attribute_long_hex (ser : BinaryXmlSerializer) (name : String) (value : Int) :
    Except ConversionError BinaryXmlSerializer :=
  match write_interned_utf (write_byte ser.output (ATTRIBUTE ||| TYPE_LONG_HEX)) name with
  | .error e => .error e
  | .ok o => .ok { ser with output := write_long o value }

/-- `BinaryXmlSerializer::attribute_double`.  The `f64` argument of the Rust
function is represented by the string it was parsed from (see `OByte.dbl`). -/
def attribute_double (ser : BinaryXmlSerializer) (name value : String) :
    Except ConversionError BinaryXmlSerializer :=
  match write_interned_utf (write_byte ser.output (ATTRIBUTE ||| TYPE_DOUBLE)) name with
  | .error e => .error e
  | .ok o => .ok { ser with output := write_double o value }

/-- `BinaryXmlSerializer::attribute_boolean`: the boolean is carried entirely
by the control byte; only the interned name follows. -/
def attribute_boolean (ser : BinaryXmlSerializer) (name : String) (value : Bool) :
    Except ConversionError BinaryXmlSerializer :=
  let token := if value then ATTRIBUTE ||| TYPE_BOOLEAN_TRUE else ATTRIBUTE ||| TYPE_BOOLEAN_FALSE
  match write_interned_utf (write_byte ser.output token) name with
  | .error e => .error e
  | .ok o => .ok { ser with output := o }

/-- `BinaryXmlSerializer::text`. -/
def text (ser : BinaryXmlSerializer) (t : String) : Except ConversionError BinaryXmlSerializer :=
  write_token ser TEXT (some t)

/-- `BinaryXmlSerializer::cdsect`. -/
def cdsect (ser : BinaryXmlSerializer) (t : String) : Except ConversionError BinaryXmlSerializer :=
  write_token ser CDSECT (some t)

/-- `BinaryXmlSerializer::comment`. -/
def comment (ser : BinaryXmlSerializer) (t : String) : Except ConversionError BinaryXmlSerializer :=
  write_token ser COMMENT (some t)

/-- `BinaryXmlSerializer::processing_instruction`: joins target and data with
one space (target alone when data is absent or empty). -/
def processing_instruction (ser : BinaryXmlSerializer) (target : String) (data : Option String) :
    Except ConversionError BinaryXmlSerializer :=
  let full_pi :=
    match data with
    | some d => if d = "" then target else target ++ " " ++ d
    | none => target
  write_token ser PROCESSING_INSTRUCTION (some full_pi)

/-- `BinaryXmlSerializer::docdecl`. -/
def docdecl (ser : BinaryXmlSerializer) (t : String) : Except ConversionError BinaryXmlSerializer :=
  write_token ser DOCDECL (some t)

/-- `BinaryXmlSerializer::ignorable_whitespace`. -/
def ignorable_whitespace (ser : BinaryXmlSerializer) (t : String) :
    Except ConversionError BinaryXmlSerializer :=
  write_token ser IGNORABLE_WHITESPACE (some t)

/-- `BinaryXmlSerializer::entity_ref`. -/
def entity_ref (ser : BinaryXmlSerializer) (t : String) :
    Except ConversionError BinaryXmlSerializer :=
  write_token ser ENTITY_REF (some t)

/-- `type_detection::is_scientific_notation` (renamed: the original name ends
in a Lean command keyword): `s.contains('e') || s.contains('E')`. -/
def hasExpChar (s : String) : Bool :=
  s.data.contains 'e' || s.data.contains 'E'

/-- `type_detection::is_boolean`: exactly `"true"` or `"false"`. -/
def is_boolean (s : String) : Bool :=
  s == "true" || s == "false"

/-- Modelled from Rust std: `char::is_whitespace`, i.e. the Unicode
White_Space property (external to this repository, called by
`type_detection::is_whitespace_only`). -/
def rustIsWhitespace (c : Char) : Bool :=
  let n := c.toNat
  (0x09 ≤ n && n ≤ 0x0D) || n == 0x20 || n == 0x85 || n == 0xA0 || n == 0x1680 ||
  (0x2000 ≤ n && n ≤ 0x200A) || n == 0x2028 || n == 0x2029 || n == 0x202F ||
  n == 0x205F || n == 0x3000

/-- `type_detection::is_whitespace_only`: `s.chars().all(|c| c.is_whitespace())`. -/
def is_whitespace_only (s : String) : Bool :=
  s.data.all rustIsWhitespace

/-- Modelled from Rust std: the grammar accepted by `f64::from_str` —
optional exponent part `('e'|'E') sign? digit+` after the mantissa. -/
def f64ExpOk : List Char → Bool
  | [] => true
  | c :: rest =>
    if c = 'e' ∨ c = 'E' then
      let rest := match rest with
        | '+' :: t => t
        | '-' :: t => t
        | r => r
      let (ds, tail) := rest.span Char.isDigit
      decide (ds ≠ [] ∧ tail = [])
    else false

/-- Modelled from Rust std: mantissa of `f64::from_str` —
`digit+ ('.' digit*)?` or `'.' digit+`, followed by an optional exponent. -/
def f64MantissaOk (cs : List Char) : Bool :=
  let (d1, r1) := cs.span Char.isDigit
  match r1 with
  | '.' :: r2 =>
    let (d2, r3) := r2.span Char.isDigit
    decide (d1 ≠ [] ∨ d2 ≠ []) && f64ExpOk r3
  | r => decide (d1 ≠ []) && f64ExpOk r

/-- Modelled from Rust std: whether `value.parse::<f64>()` succeeds
(grammar recognition only; the numeric value is not modelled).  Accepts an
optional sign, then `inf`/`infinity`/`nan` case-insensitively or a decimal
mantissa with optional exponent. -/
def rustF64ParseOk (s : String) : Bool :=
  let cs := match s.data with
    | '+' :: t => t
    | '-' :: t => t
    | cs => cs
  let low := cs.map Char.toLower
  low == "inf".data || low == "infinity".data || low == "nan".data || f64MantissaOk cs

/-- `XmlToAbxConverter::write_attribute`: the automatic classifier.
Booleans first, then the scientific-notation double attempt (falling back to
a plain string attribute on parse failure), then the interned/plain string
split on byte length `< 50` and absence of a space character. -/
def write_attribute (ser : BinaryXmlSerializer) (name value : String) :
    Except ConversionError BinaryXmlSerializer :=
  if is_boolean value then
    attribute_boolean ser name (value == "true")
  else if hasExpChar value then
    if rustF64ParseOk value then
      attribute_double ser name value
    else
      attributeOp ser name value
  else
    if strLen value < 50 && !(value.data.contains ' ') then
      attribute_interned ser name value
    else
      attributeOp ser name value

/-- The structural events delivered by the external XML parser
(`quick_xml::events::Event`), with text already decoded to strings.
`Eof` is represented by the end of the event list. -/
inductive XEvent where
  | startElem (name : String) (attrs : List (String × String))
  | endElem (name : String)
  | emptyElem (name : String) (attrs : List (String × String))
  | textEv (s : String)
  | cdata (s : String)
  | commentEv (s : String)
  | piEv (target : String) (data : Option String)
  | declEv (encoding : Option String)
  | docTypeEv (s : String)
  | generalRef (s : String)
deriving DecidableEq

/-- Converter-local state of `convert_reader_with_options`: the serializer
plus the local `tag_stack` vector. -/
structure ConvState where
  ser : BinaryXmlSerializer
  tag_stack : List String
deriving DecidableEq

/-- The attribute loop of `Event::Start` / `Event::Empty`: each attribute in
document order through `write_attribute`. -/
def writeAttrs (ser : BinaryXmlSerializer) :
    List (String × String) → Except ConversionError BinaryXmlSerializer
  | [] => .ok ser
  | (n, v) :: rest =>
    match write_attribute ser n v with
    | .error e => .error e
    | .ok ser1 => writeAttrs ser1 rest

/-- One iteration of the event loop in
`XmlToAbxConverter::convert_reader_with_options`. -/
def processEvent (st : ConvState) : XEvent → Except ConversionError ConvState
  | .startElem name attrs =>
    match start_tag st.ser name with
    | .error e => .error e
    | .ok ser1 =>
      match writeAttrs ser1 attrs with
      | .error e => .error e
      | .ok ser2 => .ok ⟨ser2, st.tag_stack ++ [name]⟩
  | .endElem name =>
    match end_tag st.ser name with
    | .error e => .error e
    | .ok ser1 => .ok ⟨ser1, st.tag_stack.dropLast⟩
  | .emptyElem name attrs =>
    match start_tag st.ser name with
    | .error e => .error e
    | .ok ser1 =>
      match writeAttrs ser1 attrs with
      | .error e => .error e
      | .ok ser2 =>
        match end_tag ser2 name with
        | .error e => .error e
        | .ok ser3 => .ok ⟨ser3, st.tag_stack⟩
  | .textEv s =>
    if is_whitespace_only s then
      if st.ser.preserve_whitespace then
        match ignorable_whitespace st.ser s with
        | .error e => .error e
        | .ok ser1 => .ok ⟨ser1, st.tag_stack⟩
      else .ok st
    else
      match text st.ser s with
      | .error e => .error e
      | .ok ser1 => .ok ⟨ser1, st.tag_stack⟩
  | .cdata s =>
    match cdsect st.ser s with
    | .error e => .error e
    | .ok ser1 => .ok ⟨ser1, st.tag_stack⟩
  | .commentEv s =>
    match comment st.ser s with
    | .error e => .error e
    | .ok ser1 => .ok ⟨ser1, st.tag_stack⟩
  | .piEv target data =>
    match processing_instruction st.ser target data with
    | .error e => .error e
    | .ok ser1 => .ok ⟨ser1, st.tag_stack⟩
  | .declEv _ => .ok st
  | .docTypeEv s =>
    match docdecl st.ser s with
    | .error e => .error e
    | .ok ser1 => .ok ⟨ser1, st.tag_stack⟩
  | .generalRef s =>
    match entity_ref st.ser s with
    | .error e => .error e
    | .ok ser1 => .ok ⟨ser1, st.tag_stack⟩

/-- The event loop, driven to `Eof` (end of the list). -/
def runEvents : List XEvent → ConvState → Except ConversionError ConvState
  | [], st => .ok st
  | ev :: rest, st =>
    match processEvent st ev with
    | .error e => .error e
    | .ok st1 => runEvents rest st1

/-- `XmlToAbxConverter::convert_reader_with_options`: magic header
(via `with_options`), `start_document`, the event loop, `end_document`;
the result is the byte stream written to the sink. -/
def convert (events : List XEvent) (preserve_whitespace : Bool) :
    Except ConversionError (List OByte) :=
  let st0 : ConvState := ⟨start_document (with_options preserve_whitespace), []⟩
  match runEvents events st0 with
  | .error e => .error e
  | .ok st => .ok (end_document st.ser).output.out

/-- An abstract sequence of serializer tag calls, for the depth-tracking
claim: `start n` is `start_tag n`, `stop n` is `end_tag n`. -/
inductive TagOp where
  | start (name : String)
  | stop (name : String)
deriving DecidableEq

/-- Whether a `TagOp` is an `end_tag` call. -/
def TagOp.isStop : TagOp → Bool
  | .start _ => false
  | .stop _ => true

/-- Number of `start_tag` calls in a sequence. -/
def nStarts : List TagOp → Nat
  | [] => 0
  | .start _ :: r => nStarts r + 1
  | .stop _ :: r => nStarts r

/-- Number of `end_tag` calls in a sequence. -/
def nStops : List TagOp → Nat
  | [] => 0
  | .start _ :: r => nStops r
  | .stop _ :: r => nStops r + 1

/-- Run a sequence of tag calls against the serializer. -/
def runTagOps : List TagOp → BinaryXmlSerializer → Except ConversionError BinaryXmlSerializer
  | [], ser => .ok ser
  | .start n :: r, ser =>
    match start_tag ser n with
    | .error e => .error e
    | .ok ser1 => runTagOps r ser1
  | .stop n :: r, ser =>
    match end_tag ser n with
    | .error e => .error e
    | .ok ser1 => runTagOps r ser1

/-- `k` successive `write_interned_utf` calls with the same string. -/
def internIter : Nat → FastDataOutput → String → Except ConversionError FastDataOutput
  | 0, o, _ => .ok o
  | k + 1, o, s =>
    match write_interned_utf o s with
    | .error e => .error e
    | .ok o1 => internIter k o1 s

/-- The bytes a successful `write_interned_utf` appends, as a function of the
pool state: a 2-byte index for a pool hit, otherwise the sentinel `0xFFFF`
followed by the length-prefixed literal. -/
def internedBytes (o : FastDataOutput) (s : String) : List OByte :=
  match poolGet o.string_pool s with
  | some index => shortB index
  | none => shortB 0xFFFF ++ utfB s

/-- A fresh serializer as produced by `with_options true`, used as a concrete
evaluation state. -/
def ser0 : BinaryXmlSerializer := with_options true

/-!  ## Helper lemmas about the primitive writer  -/

theorem write_utf_of_le {o : FastDataOutput} {s : String}
    (h : strLen s ≤ MAX_UNSIGNED_SHORT) :
    write_utf o s = .ok { o with out := o.out ++ utfB s } := by
  simp [write_utf, Nat.not_lt.mpr h, write_bytes, write_short, utfB, List.append_assoc]

theorem write_utf_of_gt {o : FastDataOutput} {s : String}
    (h : MAX_UNSIGNED_SHORT < strLen s) :
    write_utf o s = .error (.stringTooLong (strLen s) MAX_UNSIGNED_SHORT) := by
  simp [write_utf, h]

theorem write_utf_ok_iff {o : FastDataOutput} {s : String} :
    (∃ o', write_utf o s = .ok o') ↔ strLen s ≤ MAX_UNSIGNED_SHORT := by
  constructor
  · rintro ⟨o', h⟩
    by_contra hgt
    rw [write_utf_of_gt (Nat.lt_of_not_le hgt)] at h
    exact Except.noConfusion h
  · intro h
    exact ⟨_, write_utf_of_le h⟩

theorem write_utf_ok_out {o o' : FastDataOutput} {s : String}
    (h : write_utf o s = .ok o') :
    o' = { o with out := o.out ++ utfB s } := by
  by_cases hlen : strLen s ≤ MAX_UNSIGNED_SHORT
  · rw [write_utf_of_le hlen] at h
    injection h with h
    exact h.symm
  · rw [write_utf_of_gt (Nat.lt_of_not_le hlen)] at h
    exact Except.noConfusion h

theorem write_interned_of_hit {o : FastDataOutput} {s : String} {idx : Nat}
    (h : poolGet o.string_pool s = some idx) :
    write_interned_utf o s = .ok { o with out := o.out ++ shortB idx } := by
  simp [write_interned_utf, h, write_short]

theorem write_interned_of_new {o : FastDataOutput} {s : String}
    (h : poolGet o.string_pool s = none) (hlen : strLen s ≤ MAX_UNSIGNED_SHORT) :
    write_interned_utf o s =
      .ok { out := o.out ++ shortB 0xFFFF ++ utfB s,
            string_pool := (s, o.interned_strings.length % 65536) :: o.string_pool,
            interned_strings := o.interned_strings ++ [s] } := by
  simp only [write_interned_utf, h, write_short]
  rw [write_utf_of_le hlen]

theorem write_interned_of_new_long {o : FastDataOutput} {s : String}
    (h : poolGet o.string_pool s = none) (hlen : MAX_UNSIGNED_SHORT < strLen s) :
    write_interned_utf o s = .error (.stringTooLong (strLen s) MAX_UNSIGNED_SHORT) := by
  simp [write_interned_utf, h, write_utf_of_gt hlen]

theorem write_interned_ok_out {o o' : FastDataOutput} {s : String}
    (h : write_interned_utf o s = .ok o') :
    o'.out = o.out ++ internedBytes o s := by
  unfold internedBytes
  cases hp : poolGet o.string_pool s with
  | some idx =>
    rw [write_interned_of_hit hp] at h
    cases h
    rfl
  | none =>
    by_cases hlen : strLen s ≤ MAX_UNSIGNED_SHORT
    · rw [write_interned_of_new hp hlen] at h
      cases h
      simp [List.append_assoc]
    · rw [write_interned_of_new_long hp (Nat.lt_of_not_le hlen)] at h
      exact Except.noConfusion h

theorem write_interned_ok_extends {o o' : FastDataOutput} {s : String}
    (h : write_interned_utf o s = .ok o') :
    ∃ d, o'.out = o.out ++ d :=
  ⟨_, write_interned_ok_out h⟩

theorem internedBytes_write_byte (o : FastDataOutput) (v : Nat) (s : String) :
    internedBytes (write_byte o v) s = internedBytes o s := rfl

theorem interned_token_ok_out {o : FastDataOutput} {t : Nat} {name : String}
    {o1 : FastDataOutput}
    (h : write_interned_utf (write_byte o t) name = .ok o1) :
    o1.out = o.out ++ OByte.raw (t % 256) :: internedBytes o name := by
  have h2 := write_interned_ok_out h
  rw [internedBytes_write_byte] at h2
  simpa [write_byte] using h2

/-!  ## Output shape of the token-emitting operations  -/

theorem start_document_out (ser : BinaryXmlSerializer) :
    (start_document ser).output.out
      = ser.output.out ++ [OByte.raw (START_DOCUMENT ||| TYPE_NULL)] := rfl

theorem end_document_out (ser : BinaryXmlSerializer) :
    (end_document ser).output.out
      = ser.output.out ++ [OByte.raw (END_DOCUMENT ||| TYPE_NULL)] := rfl

theorem start_tag_ok_out {ser ser' : BinaryXmlSerializer} {name : String}
    (h : start_tag ser name = .ok ser') :
    ser'.output.out = ser.output.out
      ++ OByte.raw (START_TAG ||| TYPE_STRING_INTERNED) :: internedBytes ser.output name := by
  simp only [start_tag] at h
  split at h
  next e heq => exact Except.noConfusion h
  next o1 heq =>
    cases h
    exact interned_token_ok_out heq

theorem end_tag_ok_out {ser ser' : BinaryXmlSerializer} {name : String}
    (h : end_tag ser name = .ok ser') :
    ser'.output.out = ser.output.out
      ++ OByte.raw (END_TAG ||| TYPE_STRING_INTERNED) :: internedBytes ser.output name := by
  simp only [end_tag] at h
  split at h
  next e heq => exact Except.noConfusion h
  next o1 heq =>
    cases h
    exact interned_token_ok_out heq

theorem attribute_boolean_ok_out {ser ser' : BinaryXmlSerializer} {name : String} {b : Bool}
    (h : attribute_boolean ser name b = .ok ser') :
    ser'.output.out = ser.output.out
      ++ OByte.raw (ATTRIBUTE ||| (if b then TYPE_BOOLEAN_TRUE else TYPE_BOOLEAN_FALSE))
        :: internedBytes ser.output name := by
  simp only [attribute_boolean] at h
  split at h
  next e heq => exact Except.noConfusion h
  next o1 heq =>
    cases h
    have h2 := interned_token_ok_out heq
    cases b <;> simpa using h2

theorem attributeOp_ok_out {ser ser' : BinaryXmlSerializer} {name value : String}
    (h : attributeOp ser name value = .ok ser') :
    ser'.output.out = ser.output.out
      ++ OByte.raw (ATTRIBUTE ||| TYPE_STRING) :: (internedBytes ser.output name ++ utfB value) := by
  simp only [attributeOp] at h
  split at h
  next e heq => exact Except.noConfusion h
  next o1 heq =>
    split at h
    next e heq2 => exact Except.noConfusion h
    next o2 heq2 =>
      cases h
      have h2 := interned_token_ok_out heq
      have h3 := write_utf_ok_out heq2
      subst h3
      simp [h2, List.append_assoc]
      decide

theorem attribute_interned_ok_out {ser ser' : BinaryXmlSerializer} {name value : String}
    (h : attribute_interned ser name value = .ok ser') :
    ∃ o1, write_interned_utf (write_byte ser.output (ATTRIBUTE ||| TYPE_STRING_INTERNED)) name
            = .ok o1 ∧
      ser'.output.out = ser.output.out
        ++ OByte.raw (ATTRIBUTE ||| TYPE_STRING_INTERNED)
          :: (internedBytes ser.output name ++ internedBytes o1 value) := by
  simp only [attribute_interned] at h
  split at h
  next e heq => exact Except.noConfusion h
  next o1 heq =>
    split at h
    next e heq2 => exact Except.noConfusion h
    next o2 heq2 =>
      cases h
      refine ⟨o1, heq, ?_⟩
      have h2 := interned_token_ok_out heq
      have h3 := write_interned_ok_out heq2
      simp [h3, h2, List.append_assoc]
      decide

theorem attribute_double_ok_out {ser ser' : BinaryXmlSerializer} {name value : String}
    (h : attribute_double ser name value = .ok ser') :
    ser'.output.out = ser.output.out
      ++ OByte.raw (ATTRIBUTE ||| TYPE_DOUBLE)
        :: (internedBytes ser.output name ++ (List.range 8).map (OByte.dbl value)) := by
  simp only [attribute_double] at h
  split at h
  next e heq => exact Except.noConfusion h
  next o1 heq =>
    cases h
    have h2 := interned_token_ok_out heq
    simp [write_double, h2, List.append_assoc]
    decide

theorem write_token_some_ok_out {ser ser' : BinaryXmlSerializer} {tok : Nat} {t : String}
    (h : write_token ser tok (some t) = .ok ser') :
    ser'.output.out = ser.output.out
      ++ OByte.raw ((tok ||| TYPE_STRING) % 256) :: utfB t := by
  simp only [write_token] at h
  split at h
  next e heq => exact Except.noConfusion h
  next o1 heq =>
    cases h
    have h2 := write_utf_ok_out heq
    subst h2
    simp [write_byte]

theorem attribute_bytes_hex_ok_out {ser ser' : BinaryXmlSerializer} {name : String}
    {value : List Nat}
    (h : attribute_bytes_hex ser name value = .ok ser') :
    ser'.output.out = ser.output.out
      ++ OByte.raw (ATTRIBUTE ||| TYPE_BYTES_HEX)
        :: (internedBytes ser.output name ++ shortB value.length ++ value.map OByte.raw) := by
  simp only [attribute_bytes_hex] at h
  split at h
  · exact Except.noConfusion h
  · split at h
    next e heq => exact Except.noConfusion h
    next o1 heq =>
      cases h
      have h2 := interned_token_ok_out heq
      simp [write_bytes, write_short, h2, List.append_assoc]
      decide

theorem attribute_bytes_base64_ok_out {ser ser' : BinaryXmlSerializer} {name : String}
    {value : List Nat}
    (h : attribute_bytes_base64 ser name value = .ok ser') :
    ser'.output.out = ser.output.out
      ++ OByte.raw (ATTRIBUTE ||| TYPE_BYTES_BASE64)
        :: (internedBytes ser.output name ++ shortB value.length ++ value.map OByte.raw) := by
  simp only [attribute_bytes_base64] at h
  split at h
  · exact Except.noConfusion h
  · split at h
    next e heq => exact Except.noConfusion h
    next o1 heq =>
      cases h
      have h2 := interned_token_ok_out heq
      simp [write_bytes, write_short, h2, List.append_assoc]
      decide

theorem attribute_int_ok_out {ser ser' : BinaryXmlSerializer} {name : String} {value : Int}
    (h : attribute_int ser name value = .ok ser') :
    ser'.output.out = ser.output.out
      ++ OByte.raw (ATTRIBUTE ||| TYPE_INT)
        :: (internedBytes ser.output name
            ++ (beBytes 4 (value % 4294967296).toNat).map OByte.raw) := by
  simp only [attribute_int] at h
  split at h
  next e heq => exact Except.noConfusion h
  next o1 heq =>
    cases h
    have h2 := interned_token_ok_out heq
    simp [write_int, h2, List.append_assoc]
    decide

theorem attribute_int_hex_ok_out {ser ser' : BinaryXmlSerializer} {name : String} {value : Int}
    (h : attribute_int_hex ser name value = .ok ser') :
    ser'.output.out = ser.output.out
      ++ OByte.raw (ATTRIBUTE ||| TYPE_INT_HEX)
        :: (internedBytes ser.output name
            ++ (beBytes 4 (value % 4294967296).toNat).map OByte.raw) := by
  simp only [attribute_int_hex] at h
  split at h
  next e heq => exact Except.noConfusion h
  next o1 heq =>
    cases h
    have h2 := interned_token_ok_out heq
    simp [write_int, h2, List.append_assoc]
    decide

theorem attribute_long_ok_out {ser ser' : BinaryXmlSerializer} {name : String} {value : Int}
    (h : attribute_long ser name value = .ok ser') :
    ser'.output.out = ser.output.out
      ++ OByte.raw (ATTRIBUTE ||| TYPE_LONG)
        :: (internedBytes ser.output name
            ++ (beBytes 8 (value % 18446744073709551616).toNat).map OByte.raw) := by
  simp only [attribute_long] at h
  split at h
  next e heq => exact Except.noConfusion h
  next o1 heq =>
    cases h
    have h2 := interned_token_ok_out heq
    simp [write_long, h2, List.append_assoc]
    decide

theorem attribute_long_hex_ok_out {ser ser' : BinaryXmlSerializer} {name : String} {value : Int}
    (h : attribute_long_hex ser name value = .ok ser') :
    ser'.output.out = ser.output.out
      ++ OByte.raw (ATTRIBUTE ||| TYPE_LONG_HEX)
        :: (internedBytes ser.output name
            ++ (beBytes 8 (value % 18446744073709551616).toNat).map OByte.raw) := by
  simp only [attribute_long_hex] at h
  split at h
  next e heq => exact Except.noConfusion h
  next o1 heq =>
    cases h
    have h2 := interned_token_ok_out heq
    simp [write_long, h2, List.append_assoc]
    decide

/-!  ## Appends-only behaviour: every operation only extends the stream  -/

theorem attribute_interned_ok_extends {ser ser' : BinaryXmlSerializer} {name value : String}
    (h : attribute_interned ser name value = .ok ser') :
    ∃ d, ser'.output.out = ser.output.out ++ d := by
  obtain ⟨o1, _, hout⟩ := attribute_interned_ok_out h
  exact ⟨_, hout⟩

theorem write_attribute_ok_extends {ser ser' : BinaryXmlSerializer} {name value : String}
    (h : write_attribute ser name value = .ok ser') :
    ∃ d, ser'.output.out = ser.output.out ++ d := by
  simp only [write_attribute] at h
  split at h
  · exact ⟨_, attribute_boolean_ok_out h⟩
  · split at h
    · split at h
      · exact ⟨_, attribute_double_ok_out h⟩
      · exact ⟨_, attributeOp_ok_out h⟩
    · split at h
      · exact attribute_interned_ok_extends h
      · exact ⟨_, attributeOp_ok_out h⟩

theorem writeAttrs_ok_extends {ser ser' : BinaryXmlSerializer}
    {attrs : List (String × String)}
    (h : writeAttrs ser attrs = .ok ser') :
    ∃ d, ser'.output.out = ser.output.out ++ d := by
  induction attrs generalizing ser with
  | nil =>
    cases h
    exact ⟨[], by simp⟩
  | cons a rest ih =>
    obtain ⟨n, v⟩ := a
    simp only [writeAttrs] at h
    split at h
    next e heq => exact Except.noConfusion h
    next ser1 heq =>
      obtain ⟨d1, h1⟩ := write_attribute_ok_extends heq
      obtain ⟨d2, h2⟩ := ih h
      exact ⟨d1 ++ d2, by rw [h2, h1, List.append_assoc]⟩

theorem processEvent_ok_extends {st st' : ConvState} {ev : XEvent}
    (h : processEvent st ev = .ok st') :
    ∃ d, st'.ser.output.out = st.ser.output.out ++ d := by
  cases ev with
  | startElem name attrs =>
    simp only [processEvent] at h
    split at h
    next e heq => exact Except.noConfusion h
    next ser1 heq =>
      split at h
      next e heq2 => exact Except.noConfusion h
      next ser2 heq2 =>
        cases h
        obtain ⟨d2, h2⟩ := writeAttrs_ok_extends heq2
        exact ⟨_, by rw [h2, start_tag_ok_out heq, List.append_assoc]⟩
  | endElem name =>
    simp only [processEvent] at h
    split at h
    next e heq => exact Except.noConfusion h
    next ser1 heq =>
      cases h
      exact ⟨_, end_tag_ok_out heq⟩
  | emptyElem name attrs =>
    simp only [processEvent] at h
    split at h
    next e heq => exact Except.noConfusion h
    next ser1 heq =>
      split at h
      next e heq2 => exact Except.noConfusion h
      next ser2 heq2 =>
        split at h
        next e heq3 => exact Except.noConfusion h
        next ser3 heq3 =>
          cases h
          obtain ⟨d2, h2⟩ := writeAttrs_ok_extends heq2
          refine ⟨(OByte.raw (START_TAG ||| TYPE_STRING_INTERNED)
              :: internedBytes st.ser.output name ++ d2)
              ++ OByte.raw (END_TAG ||| TYPE_STRING_INTERNED)
                :: internedBytes ser2.output name, ?_⟩
          rw [end_tag_ok_out heq3, h2, start_tag_ok_out heq]
          simp [List.append_assoc]
  | textEv s =>
    simp only [processEvent] at h
    split at h
    · split at h
      · split at h
        next e heq => exact Except.noConfusion h
        next ser1 heq =>
          cases h
          exact ⟨_, write_token_some_ok_out heq⟩
      · cases h
        exact ⟨[], by simp⟩
    · split at h
      next e heq => exact Except.noConfusion h
      next ser1 heq =>
        cases h
        exact ⟨_, write_token_some_ok_out heq⟩
  | cdata s =>
    simp only [processEvent] at h
    split at h
    next e heq => exact Except.noConfusion h
    next ser1 heq =>
      cases h
      exact ⟨_, write_token_some_ok_out heq⟩
  | commentEv s =>
    simp only [processEvent] at h
    split at h
    next e heq => exact Except.noConfusion h
    next ser1 heq =>
      cases h
      exact ⟨_, write_token_some_ok_out heq⟩
  | piEv target data =>
    simp only [processEvent, processing_instruction] at h
    split at h
    next e heq => exact Except.noConfusion h
    next ser1 heq =>
      cases h
      exact ⟨_, write_token_some_ok_out heq⟩
  | declEv enc =>
    cases h
    exact ⟨[], by simp⟩
  | docTypeEv s =>
    simp only [processEvent] at h
    split at h
    next e heq => exact Except.noConfusion h
    next ser1 heq =>
      cases h
      exact ⟨_, write_token_some_ok_out heq⟩
  | generalRef s =>
    simp only [processEvent] at h
    split at h
    next e heq => exact Except.noConfusion h
    next ser1 heq =>
      cases h
      exact ⟨_, write_token_some_ok_out heq⟩

theorem runEvents_ok_extends {events : List XEvent} {st st' : ConvState}
    (h : runEvents events st = .ok st') :
    ∃ d, st'.ser.output.out = st.ser.output.out ++ d := by
  induction events generalizing st with
  | nil =>
    cases h
    exact ⟨[], by simp⟩
  | cons ev rest ih =>
    simp only [runEvents] at h
    split at h
    next e heq => exact Except.noConfusion h
    next st1 heq =>
      obtain ⟨d1, h1⟩ := processEvent_ok_extends heq
      obtain ⟨d2, h2⟩ := ih h
      exact ⟨d1 ++ d2, by rw [h2, h1, List.append_assoc]⟩

theorem write_interned_error_shape {o : FastDataOutput} {s : String} {e : ConversionError}
    (h : write_interned_utf o s = .error e) :
    e = .stringTooLong (strLen s) MAX_UNSIGNED_SHORT := by
  cases hp : poolGet o.string_pool s with
  | some idx =>
    rw [write_interned_of_hit hp] at h
    exact Except.noConfusion h
  | none =>
    by_cases hlen : strLen s ≤ MAX_UNSIGNED_SHORT
    · rw [write_interned_of_new hp hlen] at h
      exact Except.noConfusion h
    · rw [write_interned_of_new_long hp (Nat.lt_of_not_le hlen)] at h
      injection h with h
      exact h.symm

/-!  ## Claim theorems  -/

/-- C1: the automatic classifier picks boolean exactly for the literals
`"true"` and `"false"` (case-sensitive); `"true"` emits the boolean-true
control byte and `"false"` the boolean-false one, with no value bytes after
the interned attribute name; every other value (such as `"True"`) takes a
non-boolean path whose value-type nibble is string (2), interned-string (3)
or double (11). -/
theorem c1_boolean_classification (ser : BinaryXmlSerializer) (name value : String) :
    (value = "true" → write_attribute ser name value = attribute_boolean ser name true) ∧
    (value = "false" → write_attribute ser name value = attribute_boolean ser name false) ∧
    (∀ b ser', attribute_boolean ser name b = .ok ser' →
      ser'.output.out = ser.output.out
        ++ OByte.raw (ATTRIBUTE ||| (if b then TYPE_BOOLEAN_TRUE else TYPE_BOOLEAN_FALSE))
          :: internedBytes ser.output name) ∧
    (value ≠ "true" → value ≠ "false" → ∀ ser', write_attribute ser name value = .ok ser' →
      ∃ t rest, ser'.output.out = ser.output.out
          ++ OByte.raw (ATTRIBUTE ||| (t <<< 4)) :: rest ∧ (t = 2 ∨ t = 3 ∨ t = 11)) := by
  refine ⟨?_, ?_, ?_, ?_⟩
  · rintro rfl
    simp [write_attribute, is_boolean]
  · rintro rfl
    rfl
  · intro b ser' h
    exact attribute_boolean_ok_out h
  · intro hne1 hne2 ser' h
    have hb : is_boolean value = false := by
      simp [is_boolean, hne1, hne2]
    simp only [write_attribute, hb, Bool.false_eq_true, if_false] at h
    split at h
    · split at h
      · exact ⟨11, _, attribute_double_ok_out h, Or.inr (Or.inr rfl)⟩
      · exact ⟨2, _, attributeOp_ok_out h, Or.inl rfl⟩
    · split at h
      · obtain ⟨o1, _, hout⟩ := attribute_interned_ok_out h
        exact ⟨3, _, hout, Or.inr (Or.inl rfl)⟩
      · exact ⟨2, _, attributeOp_ok_out h, Or.inl rfl⟩

theorem c1_boolean_classification_witness :
    (("true" : String) = "true" ∧
      write_attribute ser0 "n" "true" = attribute_boolean ser0 "n" true) ∧
    (("false" : String) = "false" ∧
      write_attribute ser0 "n" "false" = attribute_boolean ser0 "n" false) :=
  ⟨⟨rfl, (c1_boolean_classification ser0 "n" "true").1 rfl⟩,
   ⟨rfl, (c1_boolean_classification ser0 "n" "false").2.1 rfl⟩⟩

/-- C2 counterexample: for the value `"10e"` (contains `e`, double parse
fails, byte length 3 < 50, no space) the code emits a plain non-interned
string attribute, whereas rule 3 of the claim would make it an interned
string — so the parse-failure fallback is NOT "the same as rule 3 would
give". -/
theorem c2_counterexample :
    is_boolean "10e" = false ∧
    hasExpChar "10e" = true ∧
    rustF64ParseOk "10e" = false ∧
    strLen "10e" < 50 ∧
    "10e".data.contains ' ' = false ∧
    write_attribute ser0 "n" "10e" = attributeOp ser0 "n" "10e" ∧
    write_attribute ser0 "n" "10e" ≠ attribute_interned ser0 "n" "10e" := by
  refine ⟨?_, ?_, ?_, ?_, ?_, ?_, ?_⟩ <;> decide

/-- C2 (amended): for a non-boolean value containing `e`/`E`, the classifier
attempts a full `f64` parse; on success it emits a double attribute token
(control byte `ATTRIBUTE ||| TYPE_DOUBLE`, interned name, 8-byte payload);
on parse failure it emits the value as a PLAIN (non-interned) string
attribute directly — it does not re-enter rule 3's interning test, so even a
short space-free value becomes a plain string. -/
theorem c2_scientific_amended (ser : BinaryXmlSerializer) (name value : String)
    (hb : is_boolean value = false) (hs : hasExpChar value = true) :
    (rustF64ParseOk value = true →
      write_attribute ser name value = attribute_double ser name value) ∧
    (rustF64ParseOk value = false →
      write_attribute ser name value = attributeOp ser name value) ∧
    (∀ ser', attribute_double ser name value = .ok ser' →
      ser'.output.out = ser.output.out
        ++ OByte.raw (ATTRIBUTE ||| TYPE_DOUBLE)
          :: (internedBytes ser.output name ++ (List.range 8).map (OByte.dbl value))) ∧
    (∀ ser', attributeOp ser name value = .ok ser' →
      ser'.output.out = ser.output.out
        ++ OByte.raw (ATTRIBUTE ||| TYPE_STRING)
          :: (internedBytes ser.output name ++ utfB value)) := by
  refine ⟨?_, ?_, ?_, ?_⟩
  · intro hp
    simp [write_attribute, hb, hs, hp]
  · intro hp
    simp [write_attribute, hb, hs, hp]
  · intro ser' h
    exact attribute_double_ok_out h
  · intro ser' h
    exact attributeOp_ok_out h

theorem c2_scientific_amended_witness :
    is_boolean "1e10" = false ∧ hasExpChar "1e10" = true ∧ rustF64ParseOk "1e10" = true ∧
    write_attribute ser0 "n" "1e10" = attribute_double ser0 "n" "1e10" :=
  ⟨by decide, by decide, by decide,
   (c2_scientific_amended ser0 "n" "1e10" (by decide) (by decide)).1 (by decide)⟩

/-- C3 counterexample: `"ee"` is not classified as boolean or double
(it is emitted as a string), its byte length is 2 < 50 and it has no space,
yet the code produces a PLAIN string attribute, not the interned string the
claim requires for such values. -/
theorem c3_counterexample :
    is_boolean "ee" = false ∧
    write_attribute ser0 "n" "ee" = attributeOp ser0 "n" "ee" ∧
    strLen "ee" < 50 ∧
    "ee".data.contains ' ' = false ∧
    write_attribute ser0 "n" "ee" ≠ attribute_interned ser0 "n" "ee" := by
  refine ⟨?_, ?_, ?_, ?_, ?_⟩ <;> decide

/-- C3 (amended): the interned/plain split (interned-string exactly when the
UTF-8 byte length is < 50 and no space occurs) governs the values that reach
rule 3, i.e. those that are neither boolean literals nor contain `e`/`E`;
values with `e`/`E` whose double parse fails are always emitted as plain
strings regardless of length or spaces. -/
theorem c3_interning_amended (ser : BinaryXmlSerializer) (name value : String)
    (hb : is_boolean value = false) (hs : hasExpChar value = false) :
    (strLen value < 50 ∧ value.data.contains ' ' = false →
      write_attribute ser name value = attribute_interned ser name value) ∧
    (¬(strLen value < 50 ∧ value.data.contains ' ' = false) →
      write_attribute ser name value = attributeOp ser name value) ∧
    (ATTRIBUTE ||| TYPE_STRING_INTERNED) / 16 = 3 ∧
    (ATTRIBUTE ||| TYPE_STRING) / 16 = 2 := by
  refine ⟨?_, ?_, by decide, by decide⟩
  · rintro ⟨h1, h2⟩
    have hmem : ' ' ∉ value.data := by simpa using h2
    simp [write_attribute, hb, hs, h1, hmem]
  · intro hcond
    by_cases h1 : strLen value < 50
    · have h2 : value.data.contains ' ' = true := by
        cases hc : value.data.contains ' ' with
        | true => rfl
        | false => exact absurd ⟨h1, hc⟩ hcond
      have hmem : ' ' ∈ value.data := by simpa using h2
      simp [write_attribute, hb, hs, hmem]
    · simp [write_attribute, hb, hs, h1]

theorem c3_interning_amended_witness :
    is_boolean "abc" = false ∧ hasExpChar "abc" = false ∧
    (strLen "abc" < 50 ∧ "abc".data.contains ' ' = false) ∧
    write_attribute ser0 "n" "abc" = attribute_interned ser0 "n" "abc" :=
  ⟨by decide, by decide, ⟨by decide, by decide⟩,
   (c3_interning_amended ser0 "n" "abc" (by decide) (by decide)).1 ⟨by decide, by decide⟩⟩

theorem internIter_hit {s : String} {idx : Nat} (k : Nat) :
    ∀ o : FastDataOutput, poolGet o.string_pool s = some idx →
      internIter k o s
        = .ok { o with out := o.out ++ (List.replicate k (shortB idx)).flatten } := by
  induction k with
  | zero =>
    intro o h
    simp [internIter]
  | succ k ih =>
    intro o h
    simp only [internIter]
    rw [write_interned_of_hit h]
    simp only [ih { o with out := o.out ++ shortB idx } h]
    simp [List.replicate_succ, List.append_assoc]

/-- C4: the first interning of a string writes the sentinel short 65535
followed by the length-prefixed literal and registers the string at index
`interned_strings.len() as u16` (the next sequential index whenever fewer
than 2^16 entries exist); each of the remaining `k − 1` occurrences writes
only the stored 2-byte index. -/
theorem c4_intern_once (o : FastDataOutput) (s : String) (k : Nat)
    (hnew : poolGet o.string_pool s = none)
    (hlen : strLen s ≤ MAX_UNSIGNED_SHORT)
    (hk : 1 ≤ k) :
    ∃ o', internIter k o s = .ok o' ∧
      o'.out = o.out ++ (shortB 0xFFFF ++ utfB s)
        ++ (List.replicate (k - 1)
              (shortB (o.interned_strings.length % 65536))).flatten ∧
      o'.interned_strings = o.interned_strings ++ [s] ∧
      poolGet o'.string_pool s = some (o.interned_strings.length % 65536) ∧
      (o.interned_strings.length < 65536 →
        o.interned_strings.length % 65536 = o.interned_strings.length) := by
  obtain ⟨k1, rfl⟩ : ∃ k1, k = k1 + 1 := ⟨k - 1, (Nat.succ_pred_eq_of_pos hk).symm⟩
  simp only [internIter]
  rw [write_interned_of_new hnew hlen]
  have hhit : poolGet ((s, o.interned_strings.length % 65536) :: o.string_pool) s
      = some (o.interned_strings.length % 65536) := by
    simp [poolGet]
  have hstep := @internIter_hit s (o.interned_strings.length % 65536) k1
      { out := o.out ++ shortB 65535 ++ utfB s,
        string_pool := (s, o.interned_strings.length % 65536) :: o.string_pool,
        interned_strings := o.interned_strings ++ [s] } hhit
  refine ⟨_, hstep, ?_, rfl, hhit, fun h => Nat.mod_eq_of_lt h⟩
  simp [List.append_assoc]

theorem c4_intern_once_witness :
    (poolGet FastDataOutput.new.string_pool "a" = none ∧
      strLen "a" ≤ MAX_UNSIGNED_SHORT ∧ 1 ≤ 2) ∧
    (∃ o', internIter 2 FastDataOutput.new "a" = .ok o' ∧
      o'.out = FastDataOutput.new.out ++ (shortB 0xFFFF ++ utfB "a")
        ++ (List.replicate (2 - 1)
              (shortB (FastDataOutput.new.interned_strings.length % 65536))).flatten ∧
      o'.interned_strings = FastDataOutput.new.interned_strings ++ ["a"] ∧
      poolGet o'.string_pool "a"
        = some (FastDataOutput.new.interned_strings.length % 65536) ∧
      (FastDataOutput.new.interned_strings.length < 65536 →
        FastDataOutput.new.interned_strings.length % 65536
          = FastDataOutput.new.interned_strings.length)) :=
  ⟨⟨by decide, by decide, by decide⟩,
   c4_intern_once FastDataOutput.new "a" 2 (by decide) (by decide) (by decide)⟩

/-- C5: `write_utf` succeeds (2-byte length then the bytes) exactly when the
UTF-8 byte length is at most 65535 and fails with `StringTooLong` exactly
when it exceeds 65535; the hex and base64 raw-byte attribute writes enforce
the same ceiling independently, failing with `BinaryDataTooLong` exactly
when the payload exceeds 65535 bytes. -/
theorem c5_length_ceilings :
    (∀ o s, strLen s ≤ MAX_UNSIGNED_SHORT →
      write_utf o s = .ok { o with out := o.out ++ utfB s }) ∧
    (∀ o s, MAX_UNSIGNED_SHORT < strLen s →
      write_utf o s = .error (.stringTooLong (strLen s) MAX_UNSIGNED_SHORT)) ∧
    (∀ ser name v, MAX_UNSIGNED_SHORT < v.length →
      attribute_bytes_hex ser name v
        = .error (.binaryDataTooLong v.length MAX_UNSIGNED_SHORT)) ∧
    (∀ ser name v, v.length ≤ MAX_UNSIGNED_SHORT → ∀ a b,
      attribute_bytes_hex ser name v ≠ .error (.binaryDataTooLong a b)) ∧
    (∀ ser name v, MAX_UNSIGNED_SHORT < v.length →
      attribute_bytes_base64 ser name v
        = .error (.binaryDataTooLong v.length MAX_UNSIGNED_SHORT)) ∧
    (∀ ser name v, v.length ≤ MAX_UNSIGNED_SHORT → ∀ a b,
      attribute_bytes_base64 ser name v ≠ .error (.binaryDataTooLong a b)) := by
  refine ⟨fun o s h => write_utf_of_le h, fun o s h => write_utf_of_gt h, ?_, ?_, ?_, ?_⟩
  · intro ser name v h
    simp [attribute_bytes_hex, h]
  · intro ser name v h a b hc
    rw [attribute_bytes_hex, if_neg (Nat.not_lt.mpr h)] at hc
    split at hc
    next e heq =>
      injection hc with hc
      subst hc
      exact ConversionError.noConfusion (write_interned_error_shape heq)
    next o1 heq => exact Except.noConfusion hc
  · intro ser name v h
    simp [attribute_bytes_base64, h]
  · intro ser name v h a b hc
    rw [attribute_bytes_base64, if_neg (Nat.not_lt.mpr h)] at hc
    split at hc
    next e heq =>
      injection hc with hc
      subst hc
      exact ConversionError.noConfusion (write_interned_error_shape heq)
    next o1 heq => exact Except.noConfusion hc

theorem c5_length_ceilings_witness :
    (strLen "ab" ≤ MAX_UNSIGNED_SHORT ∧
      write_utf FastDataOutput.new "ab"
        = .ok { FastDataOutput.new with
                  out := FastDataOutput.new.out ++ utfB "ab" }) ∧
    (MAX_UNSIGNED_SHORT < (List.replicate 65536 (0 : Nat)).length ∧
      attribute_bytes_hex ser0 "n" (List.replicate 65536 (0 : Nat))
        = .error (.binaryDataTooLong (List.replicate 65536 (0 : Nat)).length
                    MAX_UNSIGNED_SHORT)) :=
  ⟨⟨by decide, c5_length_ceilings.1 FastDataOutput.new "ab" (by decide)⟩,
   ⟨by rw [List.length_replicate]; decide,
    c5_length_ceilings.2.2.1 ser0 "n" (List.replicate 65536 (0 : Nat))
      (by rw [List.length_replicate]; decide)⟩⟩

theorem start_document_with_options_out (p : Bool) :
    (start_document (with_options p)).output.out
      = PROTOCOL_MAGIC_VERSION_0.map OByte.raw
          ++ [OByte.raw (START_DOCUMENT ||| TYPE_NULL)] := rfl

theorem convert_out_prefix {events : List XEvent} {p : Bool} {out : List OByte}
    (h : convert events p = .ok out) :
    out.take 4 = PROTOCOL_MAGIC_VERSION_0.map OByte.raw := by
  simp only [convert] at h
  split at h
  next e heq => exact Except.noConfusion h
  next st heq =>
    cases h
    obtain ⟨d, hd⟩ := runEvents_ok_extends heq
    rw [end_document_out, hd, start_document_with_options_out]
    rfl

/-- C6: the output stream of every conversion begins with the 4-byte magic
header `0x41 0x42 0x58 0x00`; the event codes and value-type codes have the
listed numeric values; a control byte is the bitwise union of the event code
(low nibble) and the value-type code shifted left 4 bits (high nibble), which
decompose by `% 16` and `/ 16`; and every token-emitting operation appends
exactly one control byte followed by its type-specific payload. -/
theorem c6_wire_format :
    ((with_options true).output.out = PROTOCOL_MAGIC_VERSION_0.map OByte.raw ∧
     (with_options false).output.out = PROTOCOL_MAGIC_VERSION_0.map OByte.raw ∧
     PROTOCOL_MAGIC_VERSION_0 = [0x41, 0x42, 0x58, 0x00]) ∧
    (∀ events p out, convert events p = .ok out →
      out.take 4 = PROTOCOL_MAGIC_VERSION_0.map OByte.raw) ∧
    (START_DOCUMENT = 0 ∧ END_DOCUMENT = 1 ∧ START_TAG = 2 ∧ END_TAG = 3 ∧
     TEXT = 4 ∧ CDSECT = 5 ∧ ENTITY_REF = 6 ∧ IGNORABLE_WHITESPACE = 7 ∧
     PROCESSING_INSTRUCTION = 8 ∧ COMMENT = 9 ∧ DOCDECL = 10 ∧ ATTRIBUTE = 15) ∧
    (TYPE_NULL = 1 <<< 4 ∧ TYPE_STRING = 2 <<< 4 ∧ TYPE_STRING_INTERNED = 3 <<< 4 ∧
     TYPE_BYTES_HEX = 4 <<< 4 ∧ TYPE_BYTES_BASE64 = 5 <<< 4 ∧ TYPE_INT = 6 <<< 4 ∧
     TYPE_INT_HEX = 7 <<< 4 ∧ TYPE_LONG = 8 <<< 4 ∧ TYPE_LONG_HEX = 9 <<< 4 ∧
     TYPE_FLOAT = 10 <<< 4 ∧ TYPE_DOUBLE = 11 <<< 4 ∧ TYPE_BOOLEAN_TRUE = 12 <<< 4 ∧
     TYPE_BOOLEAN_FALSE = 13 <<< 4) ∧
    (∀ e, e < 16 → ∀ t, t < 14 →
      (e ||| (t <<< 4)) % 16 = e ∧ (e ||| (t <<< 4)) / 16 = t) ∧
    (∀ ser, (start_document ser).output.out
      = ser.output.out ++ [OByte.raw (START_DOCUMENT ||| TYPE_NULL)]) ∧
    (∀ ser, (end_document ser).output.out
      = ser.output.out ++ [OByte.raw (END_DOCUMENT ||| TYPE_NULL)]) ∧
    (∀ ser name ser', start_tag ser name = .ok ser' → ser'.output.out
      = ser.output.out ++ OByte.raw (START_TAG ||| TYPE_STRING_INTERNED)
          :: internedBytes ser.output name) ∧
    (∀ ser name ser', end_tag ser name = .ok ser' → ser'.output.out
      = ser.output.out ++ OByte.raw (END_TAG ||| TYPE_STRING_INTERNED)
          :: internedBytes ser.output name) ∧
    (∀ ser t ser', text ser t = .ok ser' → ser'.output.out
      = ser.output.out ++ OByte.raw (TEXT ||| TYPE_STRING) :: utfB t) ∧
    (∀ ser t ser', cdsect ser t = .ok ser' → ser'.output.out
      = ser.output.out ++ OByte.raw (CDSECT ||| TYPE_STRING) :: utfB t) ∧
    (∀ ser t ser', comment ser t = .ok ser' → ser'.output.out
      = ser.output.out ++ OByte.raw (COMMENT ||| TYPE_STRING) :: utfB t) ∧
    (∀ ser t ser', docdecl ser t = .ok ser' → ser'.output.out
      = ser.output.out ++ OByte.raw (DOCDECL ||| TYPE_STRING) :: utfB t) ∧
    (∀ ser t ser', ignorable_whitespace ser t = .ok ser' → ser'.output.out
      = ser.output.out ++ OByte.raw (IGNORABLE_WHITESPACE ||| TYPE_STRING) :: utfB t) ∧
    (∀ ser t ser', entity_ref ser t = .ok ser' → ser'.output.out
      = ser.output.out ++ OByte.raw (ENTITY_REF ||| TYPE_STRING) :: utfB t) ∧
    (∀ ser target data ser', processing_instruction ser target data = .ok ser' →
      ∃ payload, ser'.output.out
        = ser.output.out ++ OByte.raw (PROCESSING_INSTRUCTION ||| TYPE_STRING) :: payload) ∧
    (∀ ser n v ser', attributeOp ser n v = .ok ser' → ser'.output.out
      = ser.output.out ++ OByte.raw (ATTRIBUTE ||| TYPE_STRING)
          :: (internedBytes ser.output n ++ utfB v)) ∧
    (∀ ser n v ser', attribute_interned ser n v = .ok ser' →
      ∃ payload, ser'.output.out
        = ser.output.out ++ OByte.raw (ATTRIBUTE ||| TYPE_STRING_INTERNED) :: payload) ∧
    (∀ ser n b ser', attribute_boolean ser n b = .ok ser' → ser'.output.out
      = ser.output.out
          ++ OByte.raw (ATTRIBUTE ||| (if b then TYPE_BOOLEAN_TRUE else TYPE_BOOLEAN_FALSE))
            :: internedBytes ser.output n) ∧
    (∀ ser n v ser', attribute_double ser n v = .ok ser' → ser'.output.out
      = ser.output.out ++ OByte.raw (ATTRIBUTE ||| TYPE_DOUBLE)
          :: (internedBytes ser.output n ++ (List.range 8).map (OByte.dbl v))) ∧
    (∀ ser n v ser', attribute_bytes_hex ser n v = .ok ser' → ser'.output.out
      = ser.output.out ++ OByte.raw (ATTRIBUTE ||| TYPE_BYTES_HEX)
          :: (internedBytes ser.output n ++ shortB v.length ++ v.map OByte.raw)) ∧
    (∀ ser n v ser', attribute_bytes_base64 ser n v = .ok ser' → ser'.output.out
      = ser.output.out ++ OByte.raw (ATTRIBUTE ||| TYPE_BYTES_BASE64)
          :: (internedBytes ser.output n ++ shortB v.length ++ v.map OByte.raw)) ∧
    (∀ ser n v ser', attribute_int ser n v = .ok ser' → ser'.output.out
      = ser.output.out ++ OByte.raw (ATTRIBUTE ||| TYPE_INT)
          :: (internedBytes ser.output n
              ++ (beBytes 4 (v % 4294967296).toNat).map OByte.raw)) ∧
    (∀ ser n v ser', attribute_int_hex ser n v = .ok ser' → ser'.output.out
      = ser.output.out ++ OByte.raw (ATTRIBUTE ||| TYPE_INT_HEX)
          :: (internedBytes ser.output n
              ++ (beBytes 4 (v % 4294967296).toNat).map OByte.raw)) ∧
    (∀ ser n v ser', attribute_long ser n v = .ok ser' → ser'.output.out
      = ser.output.out ++ OByte.raw (ATTRIBUTE ||| TYPE_LONG)
          :: (internedBytes ser.output n
              ++ (beBytes 8 (v % 18446744073709551616).toNat).map OByte.raw)) ∧
    (∀ ser n v ser', attribute_long_hex ser n v = .ok ser' → ser'.output.out
      = ser.output.out ++ OByte.raw (ATTRIBUTE ||| TYPE_LONG_HEX)
          :: (internedBytes ser.output n
              ++ (beBytes 8 (v % 18446744073709551616).toNat).map OByte.raw)) := by
  refine ⟨⟨rfl, rfl, rfl⟩, fun events p out h => convert_out_prefix h,
    by decide, by decide, by decide,
    fun ser => start_document_out ser, fun ser => end_document_out ser,
    fun ser name ser' h => start_tag_ok_out h,
    fun ser name ser' h => end_tag_ok_out h,
    fun ser t ser' h => write_token_some_ok_out h,
    fun ser t ser' h => write_token_some_ok_out h,
    fun ser t ser' h => write_token_some_ok_out h,
    fun ser t ser' h => write_token_some_ok_out h,
    fun ser t ser' h => write_token_some_ok_out h,
    fun ser t ser' h => write_token_some_ok_out h,
    fun ser target data ser' h => ⟨_, write_token_some_ok_out h⟩,
    fun ser n v ser' h => attributeOp_ok_out h,
    ?_,
    fun ser n b ser' h => attribute_boolean_ok_out h,
    fun ser n v ser' h => attribute_double_ok_out h,
    fun ser n v ser' h => attribute_bytes_hex_ok_out h,
    fun ser n v ser' h => attribute_bytes_base64_ok_out h,
    fun ser n v ser' h => attribute_int_ok_out h,
    fun ser n v ser' h => attribute_int_hex_ok_out h,
    fun ser n v ser' h => attribute_long_ok_out h,
    fun ser n v ser' h => attribute_long_hex_ok_out h⟩
  intro ser n v ser' h
  obtain ⟨o1, _, hout⟩ := attribute_interned_ok_out h
  exact ⟨_, hout⟩

theorem processEvent_empty_eq (st : ConvState) (name : String)
    (attrs : List (String × String)) :
    processEvent st (.emptyElem name attrs)
      = match processEvent st (.startElem name attrs) with
        | .error e => .error e
        | .ok st1 => processEvent st1 (.endElem name) := by
  simp only [processEvent]
  cases hs : start_tag st.ser name with
  | error e => rfl
  | ok ser1 =>
    dsimp only
    cases ha : writeAttrs ser1 attrs with
    | error e => rfl
    | ok ser2 =>
      dsimp only
      cases he : end_tag ser2 name with
      | error e => rfl
      | ok ser3 =>
        simp

theorem c6_wire_format_witness :
    convert [] true = .ok ([OByte.raw 0x41, OByte.raw 0x42, OByte.raw 0x58, OByte.raw 0x00]
      ++ [OByte.raw (START_DOCUMENT ||| TYPE_NULL), OByte.raw (END_DOCUMENT ||| TYPE_NULL)]) ∧
    ([OByte.raw 0x41, OByte.raw 0x42, OByte.raw 0x58, OByte.raw 0x00]
        ++ [OByte.raw (START_DOCUMENT ||| TYPE_NULL),
            OByte.raw (END_DOCUMENT ||| TYPE_NULL)]).take 4
      = PROTOCOL_MAGIC_VERSION_0.map OByte.raw :=
  ⟨by decide,
   c6_wire_format.2.1 [] true _ (by decide)⟩

/-- C7: the self-closing element event is processed as a start-tag, its
attributes, then immediately an end-tag — exactly the sequence the separate
start and end events produce — so `<x/>` and `<x></x>` (no attributes, no
intervening text) yield byte-identical conversion output from any state and
with any trailing events. -/
theorem c7_empty_element_equiv (name : String) (rest : List XEvent) :
    (∀ st, runEvents (XEvent.emptyElem name [] :: rest) st
      = runEvents (XEvent.startElem name [] :: XEvent.endElem name :: rest) st) ∧
    (∀ p, convert (XEvent.emptyElem name [] :: rest) p
      = convert (XEvent.startElem name [] :: XEvent.endElem name :: rest) p) := by
  have hrun : ∀ st, runEvents (XEvent.emptyElem name [] :: rest) st
      = runEvents (XEvent.startElem name [] :: XEvent.endElem name :: rest) st := by
    intro st
    simp only [runEvents]
    rw [processEvent_empty_eq]
    cases hs : processEvent st (.startElem name []) with
    | error e => rfl
    | ok st1 => rfl
  refine ⟨hrun, fun p => ?_⟩
  simp only [convert]
  rw [hrun]

/-- C8: a whitespace-only text event yields exactly one ignorable-whitespace
token when the serializer preserves whitespace and no token at all when it
does not; a text event with any non-whitespace character is always emitted
verbatim as a text token. -/
theorem c8_whitespace_policy (st : ConvState) (s : String) :
    (is_whitespace_only s = true → st.ser.preserve_whitespace = true →
      processEvent st (.textEv s)
        = match ignorable_whitespace st.ser s with
          | .error e => .error e
          | .ok ser1 => .ok ⟨ser1, st.tag_stack⟩) ∧
    (is_whitespace_only s = true → st.ser.preserve_whitespace = false →
      processEvent st (.textEv s) = .ok st) ∧
    (is_whitespace_only s = false →
      processEvent st (.textEv s)
        = match text st.ser s with
          | .error e => .error e
          | .ok ser1 => .ok ⟨ser1, st.tag_stack⟩) ∧
    (∀ ser t ser', ignorable_whitespace ser t = .ok ser' →
      ser'.output.out = ser.output.out
        ++ OByte.raw (IGNORABLE_WHITESPACE ||| TYPE_STRING) :: utfB t) ∧
    (∀ ser t ser', text ser t = .ok ser' →
      ser'.output.out = ser.output.out
        ++ OByte.raw (TEXT ||| TYPE_STRING) :: utfB t) := by
  refine ⟨?_, ?_, ?_,
    fun ser t ser' h => write_token_some_ok_out h,
    fun ser t ser' h => write_token_some_ok_out h⟩
  · intro hws hp
    simp [processEvent, hws, hp]
  · intro hws hp
    simp [processEvent, hws, hp]
  · intro hws
    simp [processEvent, hws]

theorem c8_whitespace_policy_witness :
    (is_whitespace_only " " = true ∧
      (⟨ser0, []⟩ : ConvState).ser.preserve_whitespace = true ∧
      processEvent ⟨ser0, []⟩ (.textEv " ")
        = match ignorable_whitespace ser0 " " with
          | .error e => .error e
          | .ok ser1 => .ok ⟨ser1, ([] : List String)⟩) ∧
    (is_whitespace_only " " = true ∧
      (⟨with_options false, []⟩ : ConvState).ser.preserve_whitespace = false ∧
      processEvent ⟨with_options false, []⟩ (.textEv " ")
        = .ok ⟨with_options false, []⟩) ∧
    (is_whitespace_only "a b" = false ∧
      processEvent ⟨ser0, []⟩ (.textEv "a b")
        = match text ser0 "a b" with
          | .error e => .error e
          | .ok ser1 => .ok ⟨ser1, ([] : List String)⟩) :=
  ⟨⟨by decide, by decide,
    (c8_whitespace_policy ⟨ser0, []⟩ " ").1 (by decide) (by decide)⟩,
   ⟨by decide, by decide,
    (c8_whitespace_policy ⟨with_options false, []⟩ " ").2.1 (by decide) (by decide)⟩,
   ⟨by decide,
    (c8_whitespace_policy ⟨ser0, []⟩ "a b").2.2.1 (by decide)⟩⟩

theorem start_tag_ok_count {ser ser' : BinaryXmlSerializer} {n : String}
    (h : start_tag ser n = .ok ser') : ser'.tag_count = ser.tag_count + 1 := by
  simp only [start_tag] at h
  split at h
  next e heq => exact Except.noConfusion h
  next o1 heq =>
    cases h
    rfl

theorem end_tag_ok_count {ser ser' : BinaryXmlSerializer} {n : String}
    (h : end_tag ser n = .ok ser') : ser'.tag_count = ser.tag_count - 1 := by
  simp only [end_tag] at h
  split at h
  next e heq => exact Except.noConfusion h
  next o1 heq =>
    cases h
    rfl

theorem start_tag_ok_push {ser ser' : BinaryXmlSerializer} {n : String}
    (hle : ser.tag_count ≤ ser.tag_names.length)
    (h : start_tag ser n = .ok ser') :
    ser'.tag_names[ser.tag_count]? = some n := by
  simp only [start_tag] at h
  split at h
  next e heq => exact Except.noConfusion h
  next o1 heq =>
    cases h
    by_cases hfull : ser.tag_count = ser.tag_names.length
    · have hlt : ser.tag_count
          < (ser.tag_names ++ List.replicate (max 1 (ser.tag_count / 2)) "").length := by
        rw [List.length_append, List.length_replicate]
        have : 1 ≤ max 1 (ser.tag_count / 2) := Nat.le_max_left 1 _
        omega
      rw [if_pos hfull]
      exact List.getElem?_set_eq_of_lt n hlt
    · have hlt : ser.tag_count < ser.tag_names.length := Nat.lt_of_le_of_ne hle hfull
      rw [if_neg hfull]
      exact List.getElem?_set_eq_of_lt n hlt

theorem runTagOps_count (ops : List TagOp) :
    ∀ ser : BinaryXmlSerializer,
    (∀ i (hi : i < ops.length), (ops.get ⟨i, hi⟩).isStop = true →
      nStops (ops.take i) < nStarts (ops.take i) + ser.tag_count) →
    ∀ ser', runTagOps ops ser = .ok ser' →
      ser'.tag_count + nStops ops = ser.tag_count + nStarts ops := by
  induction ops with
  | nil =>
    intro ser hw ser' h
    cases h
    simp [nStops, nStarts]
  | cons op rest ih =>
    intro ser hw ser' h
    cases op with
    | start n =>
      simp only [runTagOps] at h
      split at h
      next e heq => exact Except.noConfusion h
      next s1 heq =>
        have hc := start_tag_ok_count heq
        have hw' : ∀ i (hi : i < rest.length), (rest.get ⟨i, hi⟩).isStop = true →
            nStops (rest.take i) < nStarts (rest.take i) + s1.tag_count := by
          intro i hi hstop
          have h2 : nStops (rest.take i) < nStarts (rest.take i) + 1 + ser.tag_count :=
            hw (i + 1) (Nat.succ_lt_succ hi) hstop
          omega
        have hres := ih s1 hw' ser' h
        simp only [nStops, nStarts]
        omega
    | stop n =>
      have hpos : 0 < ser.tag_count := by simpa [nStops, nStarts] using hw 0 (Nat.succ_pos _) rfl
      simp only [runTagOps] at h
      split at h
      next e heq => exact Except.noConfusion h
      next s1 heq =>
        have hc := end_tag_ok_count heq
        have hw' : ∀ i (hi : i < rest.length), (rest.get ⟨i, hi⟩).isStop = true →
            nStops (rest.take i) < nStarts (rest.take i) + s1.tag_count := by
          intro i hi hstop
          have h2 : nStops (rest.take i) + 1 < nStarts (rest.take i) + ser.tag_count :=
            hw (i + 1) (Nat.succ_lt_succ hi) hstop
          omega
        have hres := ih s1 hw' ser' h
        simp only [nStops, nStarts]
        omega

/-- C9: under the well-formed precondition that every end-tag call is
preceded by strictly more start-tag calls, `start_tag` increments the depth
counter by one (storing the name at the old depth), `end_tag` decrements it
by one, the depth counter always equals the exact (non-negative) difference
of starts and stops — so the unguarded decrement in `end_tag` never
underflows: the counter is strictly positive before every end-tag call. -/
theorem c9_depth_never_negative (ops : List TagOp) (ser : BinaryXmlSerializer)
    (h0 : ser.tag_count = 0)
    (hw : ∀ i (hi : i < ops.length), (ops.get ⟨i, hi⟩).isStop = true →
      nStops (ops.take i) < nStarts (ops.take i)) :
    (∀ s n s', start_tag s n = .ok s' → s'.tag_count = s.tag_count + 1) ∧
    (∀ s n s', s.tag_count ≤ s.tag_names.length → start_tag s n = .ok s' →
      s'.tag_names[s.tag_count]? = some n) ∧
    (∀ s n s', end_tag s n = .ok s' → s'.tag_count = s.tag_count - 1) ∧
    (∀ ser', runTagOps ops ser = .ok ser' →
      ser'.tag_count + nStops ops = nStarts ops) ∧
    (∀ p n q, ops = p ++ TagOp.stop n :: q →
      ∀ serp, runTagOps p ser = .ok serp → 0 < serp.tag_count) := by
  refine ⟨fun s n s' h => start_tag_ok_count h,
    fun s n s' hle h => start_tag_ok_push hle h,
    fun s n s' h => end_tag_ok_count h, ?_, ?_⟩
  · intro ser' h
    have hres := runTagOps_count ops ser
      (fun i hi hstop => by simpa [h0] using hw i hi hstop) ser' h
    omega
  · intro p n q hsplit serp hrun
    have hplen : p.length < ops.length := by
      subst hsplit
      simp
    have hwp : ∀ i (hi : i < p.length), (p.get ⟨i, hi⟩).isStop = true →
        nStops (p.take i) < nStarts (p.take i) + ser.tag_count := by
      intro i hi hstop
      have hi2 : i < ops.length := Nat.lt_trans hi hplen
      have hget : ops.get ⟨i, hi2⟩ = p.get ⟨i, hi⟩ := by
        subst hsplit
        rw [List.get_eq_getElem, List.get_eq_getElem, List.getElem_append_left hi]
      have htake : ops.take i = p.take i := by
        subst hsplit
        exact List.take_append_of_le_length (Nat.le_of_lt hi)
      have := hw i hi2 (by rw [hget]; exact hstop)
      rw [htake] at this
      omega
    have hcount := runTagOps_count p ser hwp serp hrun
    have hstop2 : (ops.get ⟨p.length, hplen⟩).isStop = true := by
      subst hsplit
      rw [List.get_eq_getElem, List.getElem_append_right (Nat.le_refl _)]
      simp [TagOp.isStop]
    have hlast := hw p.length hplen hstop2
    have htakep : ops.take p.length = p := by
      subst hsplit
      exact List.take_left p (TagOp.stop n :: q)
    rw [htakep] at hlast
    omega

theorem c9_depth_never_negative_witness :
    (ser0.tag_count = 0) ∧
    (∀ i (hi : i < ([TagOp.start "a", TagOp.stop "a"] : List TagOp).length),
      (([TagOp.start "a", TagOp.stop "a"] : List TagOp).get ⟨i, hi⟩).isStop = true →
      nStops (([TagOp.start "a", TagOp.stop "a"] : List TagOp).take i)
        < nStarts (([TagOp.start "a", TagOp.stop "a"] : List TagOp).take i)) ∧
    (∃ serEnd, runTagOps [TagOp.start "a", TagOp.stop "a"] ser0 = .ok serEnd ∧
      serEnd.tag_count + nStops [TagOp.start "a", TagOp.stop "a"]
        = nStarts [TagOp.start "a", TagOp.stop "a"]) :=
  ⟨rfl, by decide,
   ⟨_, rfl,
    (c9_depth_never_negative [TagOp.start "a", TagOp.stop "a"] ser0 rfl
      (by decide)).2.2.2.1 _ rfl⟩⟩

/-- C10: a new pool entry is registered under index
`interned_strings.len() as u16`, i.e. the pool size reduced modulo 2^16;
with 65535 strings already interned the next distinct string is interned
without error under index 65535 — numerically identical to the reserved
"new entry follows" sentinel — and every later occurrence is referenced by
that sentinel-colliding index instead of any capacity error being raised. -/
theorem c10_pool_sentinel_collision (o : FastDataOutput) (s : String)
    (hnew : poolGet o.string_pool s = none)
    (hlen : strLen s ≤ MAX_UNSIGNED_SHORT)
    (hsize : o.interned_strings.length = 65535) :
    ∃ o', write_interned_utf o s = .ok o' ∧
      o'.interned_strings = o.interned_strings ++ [s] ∧
      poolGet o'.string_pool s = some (o.interned_strings.length % 65536) ∧
      o.interned_strings.length % 65536 = 65535 ∧
      write_interned_utf o' s
        = .ok { o' with out := o'.out ++ shortB (o.interned_strings.length % 65536) } ∧
      shortB 65535 = shortB 0xFFFF := by
  rw [write_interned_of_new hnew hlen]
  have hhit : poolGet ((s, o.interned_strings.length % 65536) :: o.string_pool) s
      = some (o.interned_strings.length % 65536) := by
    simp [poolGet]
  have hmod : o.interned_strings.length % 65536 = 65535 := by rw [hsize]
  refine ⟨_, rfl, rfl, hhit, hmod, ?_, rfl⟩
  exact @write_interned_of_hit
      { out := o.out ++ shortB 65535 ++ utfB s,
        string_pool := (s, o.interned_strings.length % 65536) :: o.string_pool,
        interned_strings := o.interned_strings ++ [s] } s
      (o.interned_strings.length % 65536) hhit

theorem c10_pool_sentinel_collision_witness :
    (poolGet (⟨[], [], List.replicate 65535 "x"⟩ : FastDataOutput).string_pool "a" = none ∧
     strLen "a" ≤ MAX_UNSIGNED_SHORT ∧
     (⟨[], [], List.replicate 65535 "x"⟩ : FastDataOutput).interned_strings.length = 65535) ∧
    (∃ o', write_interned_utf (⟨[], [], List.replicate 65535 "x"⟩ : FastDataOutput) "a"
        = .ok o' ∧
      o'.interned_strings
        = (⟨[], [], List.replicate 65535 "x"⟩ : FastDataOutput).interned_strings ++ ["a"] ∧
      poolGet o'.string_pool "a"
        = some ((⟨[], [], List.replicate 65535 "x"⟩ :
            FastDataOutput).interned_strings.length % 65536) ∧
      (⟨[], [], List.replicate 65535 "x"⟩ :
          FastDataOutput).interned_strings.length % 65536 = 65535 ∧
      write_interned_utf o' "a"
        = .ok { o' with
                  out := o'.out ++ shortB ((⟨[], [], List.replicate 65535 "x"⟩ :
                    FastDataOutput).interned_strings.length % 65536) } ∧
      shortB 65535 = shortB 0xFFFF) :=
  ⟨⟨rfl, by decide, List.length_replicate 65535 "x"⟩,
   c10_pool_sentinel_collision ⟨[], [], List.replicate 65535 "x"⟩ "a" rfl (by decide)
     (List.length_replicate 65535 "x")⟩

end Xml2Abx
